import Mathlib

/-!
Shallow embedding of the `typescript-has` library (src/lib/maybe.ts and
src/lib/tuple.ts): the `Tuple` pair type and the `Maybe` optional type
with its combinator family, translated definition by definition from the
TypeScript source, followed by theorems settling the spec claims.

JavaScript-specific behaviour is made explicit:
  - out-of-bounds array indexing yields `undefined`, modelled by `Option`;
  - calling a method on `undefined` throws a `TypeError`, modelled by
    `Except JsError`;
  - `Array.prototype.forEach` discards the callback's return value, which
    is modelled by running the callback for each element and dropping the
    results.
-/

/-- Tuple<A, B> from src/lib/tuple.ts: a record with fields fst and snd. -/
structure Tuple (A B : Type) where
  fst : A
  snd : B
deriving DecidableEq

/-- Tuple.of: constructs the pair \x7bfst: a, snd: b\x7d. -/
def Tuple.of {A B : Type} (a : A) (b : B) : Tuple A B :=
  ⟨a, b⟩

/-- Tuple.tuple: converts a binary function into one taking a single Tuple,
applying fn to the components in order (fst, snd). -/
def Tuple.tuple {A B R : Type} (fn : A → B → R) : Tuple A B → R :=
  fun t => fn t.fst t.snd

/-- Tuple.curryTuple: stages a Tuple-consuming function into two calls,
reconstructing the pair \x7bfst, snd\x7d in the inner stage. -/
def Tuple.curryTuple {A B R : Type} (fn : Tuple A B → R) : A → B → R :=
  fun fst => fun snd => fn ⟨fst, snd⟩

/-- Tuple.curry: stages a binary function into two calls directly. -/
def Tuple.curry {A B R : Type} (fn : A → B → R) : A → B → R :=
  fun fst => fun snd => fn fst snd

/-- Maybe<A> from src/lib/maybe.ts: the closed two-variant sum realised by
the Just/Nothing subclasses of the abstract Maybe class. -/
inductive Maybe (A : Type) : Type where
  | just (value : A)
  | nothing
deriving DecidableEq

/-- Maybe.Elim<A, R>: the handler record \x7bjust: A -> R, nothing: R\x7d
passed to fold; the nothing branch is a plain value, not a thunk. -/
structure Elim (A R : Type) where
  just : A → R
  nothing : R

/-- The fold method: Just dispatches to match.just on the stored value,
Nothing returns match.nothing. -/
def Maybe.fold {A R : Type} (m : Maybe A) (e : Elim A R) : R :=
  match m with
  | .just value => e.just value
  | .nothing => e.nothing

/-- The isJust method: true on Just, false on Nothing. -/
def Maybe.isJust {A : Type} (m : Maybe A) : Bool :=
  match m with
  | .just _ => true
  | .nothing => false

/-- Maybe.of: injects a value as Just(value). -/
def Maybe.of {A : Type} (value : A) : Maybe A :=
  .just value

/-- Maybe.zero: the Nothing constructor. -/
def Maybe.zero {A : Type} : Maybe A :=
  .nothing

/-- The free function Maybe.fold: returns the eliminator closure. -/
def Maybe.foldFree {A R : Type} (e : Elim A R) : Maybe A → R :=
  fun m => m.fold e

/-- Maybe.map: fold with just ↦ new Just(fn(a)) and nothing ↦ zero(). -/
def Maybe.map {A B : Type} (fn : A → B) : Maybe A → Maybe B :=
  fun ma => ma.fold ⟨fun a => .just (fn a), Maybe.zero⟩

/-- Maybe.bind: fold with just ↦ fn(a) and nothing ↦ zero(). -/
def Maybe.bind {A B : Type} (fn : A → Maybe B) : Maybe A → Maybe B :=
  fun ma => ma.fold ⟨fun a => fn a, Maybe.zero⟩

/-- Maybe.zipWith: nested folds; of(fn(a, b)) when both are Just,
zero() as each nothing branch. -/
def Maybe.zipWith {A B R : Type} (fn : A → B → R) :
    Maybe A → Maybe B → Maybe R :=
  fun ma mb =>
    ma.fold ⟨fun a => mb.fold ⟨fun b => Maybe.of (fn a b), Maybe.zero⟩,
             Maybe.zero⟩

/-- Maybe.zip: zipWith specialised with Tuple.of as the combiner. -/
def Maybe.zip {A B : Type} (ma : Maybe A) (mb : Maybe B) :
    Maybe (Tuple A B) :=
  Maybe.zipWith (fun a b => Tuple.of a b) ma mb

/-- Maybe.ap: nested folds applying the wrapped function to the wrapped
argument; zero() as each nothing branch. -/
def Maybe.ap {A B : Type} (mf : Maybe (A → B)) (ma : Maybe A) : Maybe B :=
  mf.fold ⟨fun f => ma.fold ⟨fun a => Maybe.of (f a), Maybe.zero⟩,
           Maybe.zero⟩

/-- Maybe.or: fold on m1 with just ↦ m1 itself and nothing ↦ m2. -/
def Maybe.or {A : Type} (m1 m2 : Maybe A) : Maybe A :=
  m1.fold ⟨fun _ => m1, m2⟩

/-- Maybe.guard: true ↦ of(\x7b\x7d), false ↦ zero(). -/
def Maybe.guard (b : Bool) : Maybe Unit :=
  if b then Maybe.of () else Maybe.zero

/-- The forEach pass inside Maybe.leftmost: the callback
`(v) => \x7b if (v.isJust()) \x7b return v; \x7d \x7d` runs once per
element, but forEach discards every callback return value, so the pass
has no effect on the function's result. -/
def Maybe.leftmostEach {A : Type} : List (Maybe A) → Unit
  | [] => ()
  | v :: rest =>
    let _ := if v.isJust then some v else none
    Maybe.leftmostEach rest

/-- Maybe.leftmost: runs forEach over the arguments (whose callback
returns are discarded) and then returns zero(). -/
def Maybe.leftmost {A : Type} (maybes : List (Maybe A)) : Maybe A :=
  let _ := Maybe.leftmostEach maybes
  Maybe.zero

/-- Runtime errors raised by the JavaScript semantics. -/
inductive JsError : Type where
  | typeError
deriving DecidableEq

/-- JavaScript array indexing `maybes[i]` with a possibly out-of-range
signed index: `undefined` (here `none`) outside [0, length). -/
def jsIndex {α : Type} (maybes : List α) (i : Int) : Option α :=
  if 0 ≤ i then maybes.get? i.toNat else none

/-- The loop of Maybe.rightmost: `for (var i = maybes.length; 0 >= i; i--)`
with body `var x = maybes[i]; if (x.isJust()) \x7b return x; \x7d`, falling
through to `return zero()` when the condition fails. Calling isJust on an
out-of-range element (undefined) throws a TypeError. The loop can only be
entered with i ≤ 0, where indexing always fails, so the fuel never runs
out from the entry point used by rightmost; fuel exhaustion is mapped to
the same thrown error for definiteness. -/
def Maybe.rightmostLoop {A : Type} (maybes : List (Maybe A)) :
    Int → Nat → Except JsError (Maybe A)
  | i, fuel =>
    if 0 ≥ i then
      match jsIndex maybes i with
      | none => Except.error JsError.typeError
      | some x =>
        if x.isJust then Except.ok x
        else
          match fuel with
          | 0 => Except.error JsError.typeError
          | Nat.succ f2 => Maybe.rightmostLoop maybes (i - 1) f2
    else Except.ok Maybe.zero

/-- Maybe.rightmost: runs the backward loop starting at i = maybes.length.
One unit of fuel suffices because the loop body, whenever entered, throws
on its first iteration. -/
def Maybe.rightmost {A : Type} (maybes : List (Maybe A)) :
    Except JsError (Maybe A) :=
  Maybe.rightmostLoop maybes (maybes.length : Int) 1

/-- Instance method map: delegates to the free Maybe.map with this as
receiver. -/
def Maybe.instMap {A B : Type} (m : Maybe A) (fn : A → B) : Maybe B :=
  Maybe.map fn m

/-- Instance method zip: delegates to the free Maybe.zip with this first. -/
def Maybe.instZip {A B : Type} (m : Maybe A) (mb : Maybe B) :
    Maybe (Tuple A B) :=
  Maybe.zip m mb

/-- Instance method zipWith: delegates to the free Maybe.zipWith with this
as the first Maybe argument. -/
def Maybe.instZipWith {A B R : Type} (m : Maybe A) (mb : Maybe B)
    (fn : A → B → R) : Maybe R :=
  Maybe.zipWith fn m mb

/-- Instance method bind: delegates to the free Maybe.bind with this as
receiver. -/
def Maybe.instBind {A B : Type} (m : Maybe A) (fn : A → Maybe B) :
    Maybe B :=
  Maybe.bind fn m

/-- Instance method or: delegates to the free Maybe.or with this first. -/
def Maybe.instOr {A : Type} (m : Maybe A) (m2 : Maybe A) : Maybe A :=
  Maybe.or m m2

/-- Instance method orElse: folds with just ↦ id and nothing ↦ def. -/
def Maybe.orElse {A : Type} (m : Maybe A) (d : A) : A :=
  m.fold ⟨fun a => a, d⟩

/-! ## Claim theorems -/

/-- C1: the claim says leftmost returns the first Just scanning left to
right, so leftmost([Nothing, Just(7), Just(9)]) should be Just(7). The
implementation returns the found value only from the forEach callback,
whose return value is discarded, so the call returns Nothing instead. -/
theorem leftmost_drops_first_just :
    Maybe.leftmost [Maybe.zero, Maybe.of 7, Maybe.of 9] =
      (Maybe.zero : Maybe Nat) ∧
    Maybe.leftmost [Maybe.zero, Maybe.of 7, Maybe.of 9] ≠ Maybe.of 7 := by
  exact ⟨rfl, by decide⟩

/-- C2: the claim says rightmost returns the last Just in left-to-right
order, so rightmost([Just(7), Just(9), Nothing]) should be Just(9). The
loop condition 0 >= i is false at i = 3, so the loop never runs and the
call returns Nothing instead. -/
theorem rightmost_drops_last_just :
    Maybe.rightmost [Maybe.of 7, Maybe.of 9, Maybe.zero] =
      Except.ok (Maybe.zero : Maybe Nat) ∧
    (Maybe.zero : Maybe Nat) ≠ Maybe.of 9 := by
  exact ⟨rfl, by decide⟩

/-- C3: the claim says every derived combinator is total and never throws,
including on the empty variadic sequence. On an empty sequence rightmost
enters its loop with i = 0, reads maybes[0] (undefined) and calls isJust
on it, throwing a TypeError. -/
theorem rightmost_throws_on_empty :
    Maybe.rightmost ([] : List (Maybe Nat)) =
      Except.error JsError.typeError := by
  rfl

/-- C4: zipWith(fn)(ma, mb) is Just(fn(a, b)) when both inputs are Just,
and Nothing whenever either input is Nothing, for every combining
function fn. -/
theorem zipWith_characterisation {A B R : Type} (fn : A → B → R) :
    (∀ (a : A) (b : B),
      Maybe.zipWith fn (Maybe.just a) (Maybe.just b) =
        Maybe.just (fn a b)) ∧
    (∀ mb : Maybe B, Maybe.zipWith fn Maybe.nothing mb = Maybe.nothing) ∧
    (∀ ma : Maybe A, Maybe.zipWith fn ma Maybe.nothing = Maybe.nothing) := by
  refine ⟨fun a b => rfl, fun mb => rfl, fun ma => ?_⟩
  cases ma <;> rfl

/-- C5: bind satisfies the monad identity laws: bind(fn)(of(a)) = fn(a)
(left identity) and bind(of)(m) = m (right identity). -/
theorem bind_monad_identities {A B : Type} (a : A) (fn : A → Maybe B)
    (m : Maybe A) :
    Maybe.bind fn (Maybe.of a) = fn a ∧ Maybe.bind Maybe.of m = m := by
  refine ⟨rfl, ?_⟩
  cases m <;> rfl

/-- C6: map satisfies the functor laws: map(id) is the identity on every
Maybe value, map(g ∘ f) = map(g) ∘ map(f), and map(f)(zero()) = zero(). -/
theorem map_functor_laws {A B R : Type} :
    (∀ m : Maybe A, Maybe.map id m = m) ∧
    (∀ (f : A → B) (g : B → R) (m : Maybe A),
      Maybe.map (g ∘ f) m = Maybe.map g (Maybe.map f m)) ∧
    (∀ f : A → B, Maybe.map f Maybe.zero = Maybe.zero) := by
  refine ⟨fun m => ?_, fun f g m => ?_, fun f => rfl⟩
  · cases m <;> rfl
  · cases m <;> rfl

/-- C7: each Maybe instance method equals the corresponding free function
applied with the receiver as the first argument. -/
theorem instance_methods_delegate {A B R : Type} :
    (∀ (m : Maybe A) (fn : A → B), Maybe.instMap m fn = Maybe.map fn m) ∧
    (∀ (m : Maybe A) (mb : Maybe B), Maybe.instZip m mb = Maybe.zip m mb) ∧
    (∀ (m : Maybe A) (mb : Maybe B) (fn : A → B → R),
      Maybe.instZipWith m mb fn = Maybe.zipWith fn m mb) ∧
    (∀ (m : Maybe A) (fn : A → Maybe B),
      Maybe.instBind m fn = Maybe.bind fn m) ∧
    (∀ (m m2 : Maybe A), Maybe.instOr m m2 = Maybe.or m m2) :=
  ⟨fun _ _ => rfl, fun _ _ => rfl, fun _ _ _ => rfl, fun _ _ => rfl,
   fun _ _ => rfl⟩

/-- C8: or(m1, m2) returns m1 itself when m1 is Just and m2 unchanged
otherwise; in particular or(Just(1), Just(2)) = Just(1),
or(Nothing, Just(2)) = Just(2) and or(Nothing, Nothing) = Nothing. -/
theorem or_characterisation {A : Type} :
    (∀ (a : A) (m2 : Maybe A),
      Maybe.or (Maybe.just a) m2 = Maybe.just a) ∧
    (∀ m2 : Maybe A, Maybe.or Maybe.nothing m2 = m2) ∧
    Maybe.or (Maybe.of 1) (Maybe.of 2) = Maybe.of 1 ∧
    Maybe.or Maybe.nothing (Maybe.of 2) = Maybe.of 2 ∧
    Maybe.or (Maybe.nothing : Maybe Nat) Maybe.nothing = Maybe.nothing :=
  ⟨fun _ _ => rfl, fun _ => rfl, rfl, rfl, rfl⟩

/-- C9: the Tuple currying helpers round-trip: tuple(fn)(Tuple.of(a, b)) =
fn(a, b), curry(fn)(a)(b) = fn(a, b), curryTuple(tuple(fn))(a)(b) =
fn(a, b), and curry(fn) = curryTuple(tuple(fn)). -/
theorem tuple_curry_roundtrip {A B R : Type} (a : A) (b : B)
    (fn : A → B → R) :
    Tuple.tuple fn (Tuple.of a b) = fn a b ∧
    Tuple.curry fn a b = fn a b ∧
    Tuple.curryTuple (Tuple.tuple fn) a b = fn a b ∧
    Tuple.curry fn = Tuple.curryTuple (Tuple.tuple fn) :=
  ⟨rfl, rfl, rfl, rfl⟩

/-- C10: applicative application coincides with zipWith at function
application: ap(mf, ma) = zipWith((f, a) => f(a))(mf, ma); both are
Just(f(a)) exactly when mf = Just(f) and ma = Just(a), else Nothing. -/
theorem ap_eq_zipWith_apply {A B : Type} :
    (∀ (mf : Maybe (A → B)) (ma : Maybe A),
      Maybe.ap mf ma = Maybe.zipWith (fun f a => f a) mf ma) ∧
    (∀ (f : A → B) (a : A),
      Maybe.ap (Maybe.just f) (Maybe.just a) = Maybe.just (f a)) ∧
    (∀ ma : Maybe A,
      Maybe.ap (Maybe.nothing : Maybe (A → B)) ma = Maybe.nothing) ∧
    (∀ mf : Maybe (A → B), Maybe.ap mf Maybe.nothing = Maybe.nothing) := by
  refine ⟨fun mf ma => rfl, fun f a => rfl, fun ma => rfl, fun mf => ?_⟩
  cases mf <;> rfl
